import Mathlib

/-
Verification development for the ktail reconciliation controller
(controller.go).  The controller's data model and operations are embedded
shallowly: Kubernetes API structs become Lean structures, the mutex-guarded
tailer map becomes an association list threaded explicitly through each
operation, callback invocations and informer subscriptions are recorded in an
explicit event trace, and wall-clock time is passed in as an integer number of
seconds.
-/

set_option maxHeartbeats 1000000

namespace Ktail

/-- Lifecycle state of a container status (`v1.ContainerState`): whether a
waiting or terminated marker is present, and, when the running marker is
present, its `StartedAt` instant (modelled as integer seconds). -/
structure ContainerState where
  waiting : Bool
  terminated : Bool
  running : Option Int
deriving DecidableEq, Repr

/-- A `v1.ContainerStatus`: the container name plus its lifecycle state. -/
structure ContainerStatus where
  name : String
  state : ContainerState
deriving DecidableEq, Repr

/-- The zero value of `v1.ContainerStatus`: empty name, no state markers.
`make([]v1.ContainerStatus, n)` fills the slice with this value. -/
def zeroContainerStatus : ContainerStatus := ⟨"", ⟨false, false, none⟩⟩

/-- A pod phase (`v1.PodPhase`). -/
inductive PodPhase where
  | pending
  | running
  | succeeded
  | failed
  | unknown
deriving DecidableEq, Repr

/-- A container spec entry (`v1.Container`); only the name is consulted by the
controller, matching goes through an opaque `Matcher`. -/
structure Container where
  name : String
deriving DecidableEq, Repr

/-- A pod snapshot (`v1.Pod`): identity, phase, spec container lists and
status lists, exactly the fields the controller reads. -/
structure Pod where
  ns : String
  name : String
  phase : PodPhase
  initContainers : List Container
  containers : List Container
  initContainerStatuses : List ContainerStatus
  containerStatuses : List ContainerStatus
deriving DecidableEq, Repr

/-- An inclusion/exclusion matcher: an opaque boolean predicate over pods and
over containers (`Matcher.Match` on either argument type). -/
structure Matcher where
  matchPod : Pod → Bool
  matchContainer : Container → Bool

/-- Static controller configuration (`ControllerOptions`). -/
structure ControllerOptions where
  namespaces : List String
  inclusionMatcher : Matcher
  exclusionMatcher : Matcher
  sinceStart : Bool
  since : Option Int
  containerName : String

/-- The embedder callbacks the model needs a return value from: the enter
gate (`Callbacks.OnEnter`).  The remaining callbacks are pure notifications
and are recorded in the event trace instead. -/
structure Callbacks where
  onEnter : Pod → Container → Bool → Bool

/-- Direct translation of `allContainerStatusesForPod`: the Go code builds a
slice with `make([]v1.ContainerStatus, len(reg)+len(init))` (length, not
capacity) and then appends the init and regular statuses, so the result
starts with `len(reg)+len(init)` zero-valued statuses. -/
def allContainerStatusesForPod (pod : Pod) : List ContainerStatus :=
  List.replicate (pod.containerStatuses.length + pod.initContainerStatuses.length)
      zeroContainerStatus
    ++ pod.initContainerStatuses ++ pod.containerStatuses

/-- The status-presence loop of `shouldIncludeContainer`: some status entry
carries this container's name and at least one of the three state markers. -/
def containerSeen (pod : Pod) (container : Container) : Bool :=
  (allContainerStatusesForPod pod).any fun s =>
    decide (s.name = container.name) &&
      (s.state.waiting || s.state.terminated || s.state.running.isSome)

/-- Direct translation of `Controller.shouldIncludeContainer`. -/
def shouldIncludeContainer (opts : ControllerOptions) (pod : Pod)
    (container : Container) : Bool :=
  if ¬(pod.phase = PodPhase.running ∨ pod.phase = PodPhase.pending) then false
  else if containerSeen pod container = false then false
  else if opts.containerName ≠ "" ∧ opts.containerName ≠ container.name then false
  else if opts.exclusionMatcher.matchPod pod then false
  else if ¬(opts.inclusionMatcher.matchPod pod = true ∨
            opts.inclusionMatcher.matchContainer container = true) then false
  else !opts.exclusionMatcher.matchContainer container

/-- One step of the timestamp-resolution loop in `getStartTimestamp`'s default
branch: keep the running-state start time when it is earlier than the best
one found so far. -/
def earliestRunningStep (container : Container) (t : Option Int)
    (status : ContainerStatus) : Option Int :=
  if status.name = container.name then
    match status.state.running with
    | some startTime =>
      match t with
      | none => some startTime
      | some cur => if startTime < cur then some startTime else some cur
    | none => t
  else t

/-- Direct translation of `Controller.getStartTimestamp`.  The Go function
returns `(*time.Time, bool)`; here `none` is the failed resolution,
`some none` is "no timestamp" and `some (some t)` a concrete timestamp.
`now` stands for `time.Now()` in seconds. -/
def getStartTimestamp (opts : ControllerOptions) (pod : Pod) (container : Container)
    (initialAdd : Bool) (now : Int) : Option (Option Int) :=
  if opts.sinceStart then some none
  else
    match opts.since with
    | some t => some (some t)
    | none =>
      if initialAdd then some (some (now - 5))
      else
        match (allContainerStatusesForPod pod).foldl (earliestRunningStep container) none with
        | none => none
        | some t => some (some t)

/-- Direct translation of `buildKey`:
`fmt.Sprintf("%s/%s/%s", pod.Namespace, pod.Name, container.Name)`. -/
def buildKey (pod : Pod) (container : Container) : String :=
  pod.ns ++ "/" ++ pod.name ++ "/" ++ container.name

/-- A registered `ContainerTailer` handle: the snapshotted pod and container
it was constructed from and the resolved start timestamp. -/
structure ContainerTailer where
  pod : Pod
  container : Container
  fromTimestamp : Option Int
deriving DecidableEq, Repr

/-- The tailer registry `Controller.tailers`, a map from `buildKey` strings to
tailers, modelled as an association list that is only consed onto when the key
is absent. -/
abbrev Registry := List (String × ContainerTailer)

/-- Map lookup on the registry. -/
def lookupKey (r : Registry) (k : String) : Option ContainerTailer :=
  match r with
  | [] => none
  | e :: rest => if e.1 = k then some e.2 else lookupKey rest k

/-- The keys currently present in the registry. -/
def regKeys (r : Registry) : List String :=
  r.map Prod.fst

/-- Observable side effects of the controller, recorded as a trace: enter-gate
invocations, timestamp resolutions, tailer stops, exit notifications, informer
subscriptions, and the empty-discovery notification. -/
inductive Event where
  | enter (key : String) (initialAdd : Bool)
  | resolveTs (key : String)
  | stop (key : String)
  | exit (key : String)
  | subscribe (ns : String)
  | nothingDiscovered
deriving DecidableEq, Repr

/-- Direct translation of `Controller.addContainer`: under the lock, return at
once when the key is registered; otherwise invoke the enter gate and stop if
it vetoes; otherwise resolve the start timestamp and stop if that fails;
otherwise register a tailer built from the snapshotted pod and container. -/
def addContainer (opts : ControllerOptions) (cb : Callbacks) (tailers : Registry)
    (pod : Pod) (container : Container) (initialAdd : Bool) (now : Int) :
    Registry × List Event :=
  let key := buildKey pod container
  if (lookupKey tailers key).isSome then
    (tailers, [])
  else if cb.onEnter pod container initialAdd = false then
    (tailers, [Event.enter key initialAdd])
  else
    match getStartTimestamp opts pod container initialAdd now with
    | none => (tailers, [Event.enter key initialAdd, Event.resolveTs key])
    | some ts =>
      ((key, ⟨pod, container, ts⟩) :: tailers,
       [Event.enter key initialAdd, Event.resolveTs key])

/-- Direct translation of `Controller.deleteContainer`: when the key is held,
remove it, stop the tailer and notify exit; otherwise do nothing. -/
def deleteContainer (tailers : Registry) (pod : Pod) (container : Container) :
    Registry × List Event :=
  let key := buildKey pod container
  match lookupKey tailers key with
  | some _ =>
    (tailers.filter fun e => decide (e.1 ≠ key),
     [Event.stop key, Event.exit key])
  | none => (tailers, [])

/-- Loop body of `Controller.onInitialAdd`: add the container (with
`initialAdd = true`) when it passes inclusion, recording that something was
added. -/
def initialAddStep (opts : ControllerOptions) (cb : Callbacks) (pod : Pod) (now : Int)
    (acc : Registry × List Event × Bool) (container : Container) :
    Registry × List Event × Bool :=
  if shouldIncludeContainer opts pod container then
    let r := addContainer opts cb acc.1 pod container true now
    (r.1, acc.2.1 ++ r.2, true)
  else acc

/-- Direct translation of `Controller.onInitialAdd`: walk the init containers
then the regular containers in declaration order, adding (with
`initialAdd = true`) each one that passes inclusion, and report whether any
container passed. -/
def onInitialAdd (opts : ControllerOptions) (cb : Callbacks) (st : Registry)
    (pod : Pod) (now : Int) : Registry × List Event × Bool :=
  pod.containers.foldl (initialAddStep opts cb pod now)
    (pod.initContainers.foldl (initialAddStep opts cb pod now) (st, [], false))

/-- Loop body of `Controller.onAdd`: add the container (with
`initialAdd = false`) when it passes inclusion. -/
def addStep (opts : ControllerOptions) (cb : Callbacks) (pod : Pod) (now : Int)
    (acc : Registry × List Event) (container : Container) : Registry × List Event :=
  if shouldIncludeContainer opts pod container then
    let r := addContainer opts cb acc.1 pod container false now
    (r.1, acc.2 ++ r.2)
  else acc

/-- Direct translation of `Controller.onAdd`: like the initial-add pass but
with `initialAdd = false` and without reporting anything. -/
def onAdd (opts : ControllerOptions) (cb : Callbacks) (st : Registry)
    (pod : Pod) (now : Int) : Registry × List Event :=
  pod.containers.foldl (addStep opts cb pod now)
    (pod.initContainers.foldl (addStep opts cb pod now) (st, []))

/-- The spec-resolution loop of `onUpdate`: the first regular-container spec
whose name matches, `nil` when none does. -/
def findContainerByName (cs : List Container) (n : String) : Option Container :=
  cs.find? fun c => decide (c.name = n)

/-- Loop body of `Controller.onUpdate`: resolve the status name against the
regular-container specs only; skip silently when no spec matches; otherwise
add the container when inclusion passes and delete it when it does not. -/
def updateStep (opts : ControllerOptions) (cb : Callbacks) (pod : Pod) (now : Int)
    (acc : Registry × List Event) (status : ContainerStatus) : Registry × List Event :=
  match findContainerByName pod.containers status.name with
  | none => acc
  | some container =>
    if shouldIncludeContainer opts pod container then
      let r := addContainer opts cb acc.1 pod container false now
      (r.1, acc.2 ++ r.2)
    else
      let r := deleteContainer acc.1 pod container
      (r.1, acc.2 ++ r.2)

/-- Direct translation of `Controller.onUpdate`: the update loop over every
entry of `allContainerStatusesForPod`. -/
def onUpdate (opts : ControllerOptions) (cb : Callbacks) (st : Registry)
    (pod : Pod) (now : Int) : Registry × List Event :=
  (allContainerStatusesForPod pod).foldl (updateStep opts cb pod now) (st, [])

/-- Loop body of `Controller.onDelete`. -/
def deleteStep (pod : Pod) (acc : Registry × List Event) (container : Container) :
    Registry × List Event :=
  let r := deleteContainer acc.1 pod container
  (r.1, acc.2 ++ r.2)

/-- Direct translation of `Controller.onDelete`: delete every regular
container of the pod snapshot (init containers are not touched). -/
def onDelete (st : Registry) (pod : Pod) : Registry × List Event :=
  pod.containers.foldl (deleteStep pod) (st, [])

/-- Result of the synchronous part of `Controller.Run`: final registry, event
trace, the `discoveredAny` flag, and the namespace whose listing failed, when
one did. -/
structure RunAcc where
  tailers : Registry
  events : List Event
  discoveredAny : Bool
  err : Option String
deriving Repr

/-- Loop body of the per-namespace pod loop of `Run`: run the initial-add
pass for one listed pod, recording whether it discovered anything. -/
def podStep (opts : ControllerOptions) (cb : Callbacks) (now : Int)
    (acc : Registry × List Event × Bool) (pod : Pod) : Registry × List Event × Bool :=
  let r := onInitialAdd opts cb acc.1 pod now
  (r.1, acc.2.1 ++ r.2.1, acc.2.2 || r.2.2)

/-- The per-namespace pod loop of `Run`: run the initial-add pass over each
listed pod, accumulating the registry, the trace and `discoveredAny`. -/
def processPods (opts : ControllerOptions) (cb : Callbacks) (now : Int)
    (pods : List Pod) (st : Registry) (disc : Bool) :
    Registry × List Event × Bool :=
  pods.foldl (podStep opts cb now) (st, [], disc)

/-- The namespace loop of `Run`: list each namespace in order; a listing error
aborts the whole run naming that namespace, before the namespace is
subscribed; otherwise process the listed pods and subscribe the namespace to
live events.  `env` stands for the watch source's `List` call. -/
def runNamespaces (opts : ControllerOptions) (cb : Callbacks)
    (env : String → Except String (List Pod)) (now : Int) :
    List String → Registry → Bool → RunAcc
  | [], st, disc => ⟨st, [], disc, none⟩
  | ns :: rest, st, disc =>
    match env ns with
    | Except.error _ => ⟨st, [], disc, some ns⟩
    | Except.ok pods =>
      let p := processPods opts cb now pods st disc
      let r := runNamespaces opts cb env now rest p.1 p.2.2
      ⟨r.tailers, p.2.1 ++ [Event.subscribe ns] ++ r.events, r.discoveredAny, r.err⟩

/-- The synchronous prefix of `Controller.Run`: the namespace loop starting
from the empty registry, followed by the one-shot empty-discovery callback
when no listing failed and nothing was discovered. -/
def runInitialPass (opts : ControllerOptions) (cb : Callbacks)
    (env : String → Except String (List Pod)) (now : Int) : RunAcc :=
  let r := runNamespaces opts cb env now opts.namespaces [] false
  match r.err with
  | some _ => r
  | none =>
    if r.discoveredAny = false then
      { r with events := r.events ++ [Event.nothingDiscovered] }
    else r

/-- Spec-side: the running-state start instants among the pod's status entries
that carry this container's name. -/
def runningStarts (pod : Pod) (c : Container) : List Int :=
  (pod.initContainerStatuses ++ pod.containerStatuses).filterMap fun s =>
    if s.name = c.name then s.state.running else none

/-- Minimum of an optional best-so-far and a new value, the accumulator shape
of `getStartTimestamp`'s resolution loop. -/
def minOpt (t : Option Int) (x : Int) : Option Int :=
  match t with
  | none => some x
  | some cur => if x < cur then some x else some cur

/-- A sequence of `addContainer` calls, threading the registry. -/
def execAdds (opts : ControllerOptions) (cb : Callbacks)
    (cmds : List (Pod × Container × Bool × Int)) (st : Registry) : Registry :=
  cmds.foldl
    (fun st cmd => (addContainer opts cb st cmd.1 cmd.2.1 cmd.2.2.1 cmd.2.2.2).1) st

/-- A pod with one init-container status and one regular-container status,
exercising the slice allocation in `allContainerStatusesForPod`. -/
def podC4 : Pod :=
  { ns := "ns1", name := "p1", phase := PodPhase.running,
    initContainers := [⟨"init-a"⟩], containers := [⟨"c1"⟩],
    initContainerStatuses := [⟨"init-a", ⟨false, false, some 3⟩⟩],
    containerStatuses := [⟨"c1", ⟨false, false, some 7⟩⟩] }

/-- Modelled from the claim's words: the add pass common to `onInitialAdd` and
`onAdd`, with the `initialAdd` flag as a parameter — its loop body. -/
def passStep (opts : ControllerOptions) (cb : Callbacks) (pod : Pod) (now : Int)
    (b : Bool) (acc : Registry × List Event × Bool) (container : Container) :
    Registry × List Event × Bool :=
  if shouldIncludeContainer opts pod container then
    let r := addContainer opts cb acc.1 pod container b now
    (r.1, acc.2.1 ++ r.2, true)
  else acc

/-- Modelled from the claim's words: walk init containers then regular
containers in declaration order, add each container that passes inclusion
with the given `initialAdd` flag, and report whether anything was added. -/
def onAddPass (opts : ControllerOptions) (cb : Callbacks) (b : Bool) (st : Registry)
    (pod : Pod) (now : Int) : Registry × List Event × Bool :=
  pod.containers.foldl (passStep opts cb pod now b)
    (pod.initContainers.foldl (passStep opts cb pod now b) (st, [], false))

/-- Spec-side: does the listing of namespace `n` return a pod one of whose
containers passes inclusion? -/
def namespaceDiscovers (opts : ControllerOptions)
    (env : String → Except String (List Pod)) (n : String) : Bool :=
  match env n with
  | Except.ok pods =>
    pods.any fun pod =>
      (pod.initContainers ++ pod.containers).any
        fun c => shouldIncludeContainer opts pod c
  | Except.error _ => false

/-- Spec-side: some container of some pod listed in some configured namespace
passes the inclusion policy during the initial pass. -/
def anyIncludedDuringListing (opts : ControllerOptions)
    (env : String → Except String (List Pod)) : Bool :=
  opts.namespaces.any (namespaceDiscovers opts env)

/-- A matcher accepting everything. -/
def matchAll : Matcher := ⟨fun _ => true, fun _ => true⟩

/-- A matcher accepting nothing. -/
def matchNone : Matcher := ⟨fun _ => false, fun _ => false⟩

/-- Options for the C5 counterexample: one namespace, include everything,
exclude nothing, no Since/SinceStart, no container-name filter. -/
def optsC5 : ControllerOptions := ⟨["ns1"], matchAll, matchNone, false, none, ""⟩

/-- Pod for the C5 counterexample: a running pod with one regular container
that has a running status entry, so that it passes inclusion. -/
def podC5 : Pod :=
  ⟨"ns1", "p1", PodPhase.running, [], [⟨"c1"⟩], [],
   [⟨"c1", ⟨false, false, some 10⟩⟩]⟩

/-- An enter gate that vetoes every session start. -/
def cbVeto : Callbacks := ⟨fun _ _ _ => false⟩

/-- Listing environment for the C5 counterexample. -/
def envC5 : String → Except String (List Pod) := fun _ => Except.ok [podC5]

/-- Options with no Since/SinceStart and no name filter, for the witnesses. -/
def optsW : ControllerOptions := ⟨[], matchAll, matchNone, false, none, ""⟩

/-- A running pod with two duplicate running-state status entries for its one
container, reporting different instants. -/
def podW : Pod :=
  ⟨"ns1", "p1", PodPhase.running, [], [⟨"c1"⟩], [],
   [⟨"c1", ⟨false, false, some 9⟩⟩, ⟨"c1", ⟨false, false, some 4⟩⟩]⟩

/-- A registered tailer for podW's container. -/
def tlW : ContainerTailer := ⟨podW, ⟨"c1"⟩, none⟩

/-- A registry already holding podW's container key. -/
def stW : Registry := [("ns1/p1/c1", tlW)]

/-- Pod with one init container and one regular container, both with status
entries. -/
def podW6 : Pod :=
  ⟨"ns1", "p1", PodPhase.running, [⟨"init-a"⟩], [⟨"c1"⟩],
   [⟨"init-a", ⟨false, false, some 1⟩⟩], [⟨"c1", ⟨false, false, some 2⟩⟩]⟩

/-- A registry holding a session keyed to podW6's init container. -/
def stW6 : Registry := [("ns1/p1/init-a", ⟨podW6, ⟨"init-a"⟩, none⟩)]

/-- Options for the C5 witness: one namespace that lists no pods. -/
def optsW5 : ControllerOptions := ⟨["ns-empty"], matchAll, matchNone, false, none, ""⟩

/-- Listing environment for the C5 witness: every namespace lists empty. -/
def envW5 : String → Except String (List Pod) := fun _ => Except.ok []

/-- Options for the C9 witness: three namespaces, the middle one failing. -/
def optsW9 : ControllerOptions :=
  ⟨["alpha", "beta", "gamma"], matchAll, matchNone, false, none, ""⟩

/-- Listing environment for the C9 witness: listing "beta" fails, every other
namespace lists empty. -/
def envW9 : String → Except String (List Pod) := fun n =>
  if n = "beta" then Except.error "boom" else Except.ok []

/-! ### Helper lemmas about the status list and the inclusion policy -/

lemma any_replicate_eq_false {α : Type} (n : Nat) (x : α) (p : α → Bool)
    (h : p x = false) : (List.replicate n x).any p = false := by
  induction n with
  | zero => rfl
  | succ n ih => simp [List.replicate_succ, h, ih]

lemma filterMap_replicate_eq_nil {α β : Type} (n : Nat) (x : α) (f : α → Option β)
    (h : f x = none) : (List.replicate n x).filterMap f = [] := by
  induction n with
  | zero => rfl
  | succ n ih => simp [List.replicate_succ, h, ih]

/-- The status-presence check sees exactly the statuses actually on the pod:
the zero-valued prefix contributed by `allContainerStatusesForPod` carries no
state marker and can never witness it. -/
lemma containerSeen_iff (pod : Pod) (c : Container) :
    containerSeen pod c = true ↔
      ∃ s ∈ pod.initContainerStatuses ++ pod.containerStatuses,
        s.name = c.name ∧
          (s.state.waiting = true ∨ s.state.terminated = true ∨
           s.state.running.isSome = true) := by
  unfold containerSeen allContainerStatusesForPod
  rw [List.append_assoc, List.any_append,
    any_replicate_eq_false _ _ _ (by simp [zeroContainerStatus])]
  simp [List.any_eq_true, and_assoc]
  aesop

/-- C1: shouldIncludeContainer holds exactly when the pod phase is Pending or
Running, the container has some status entry with a state marker, the fixed
container-name filter is unset or equal to the container's name, the
exclusion matcher rejects neither the pod nor the container, and the
inclusion matcher accepts the pod or the container. -/
theorem shouldIncludeContainer_spec (opts : ControllerOptions) (pod : Pod)
    (c : Container) :
    shouldIncludeContainer opts pod c = true ↔
      ((pod.phase = PodPhase.pending ∨ pod.phase = PodPhase.running) ∧
       (∃ s ∈ pod.initContainerStatuses ++ pod.containerStatuses,
          s.name = c.name ∧
            (s.state.waiting = true ∨ s.state.terminated = true ∨
             s.state.running.isSome = true)) ∧
       (opts.containerName = "" ∨ opts.containerName = c.name) ∧
       opts.exclusionMatcher.matchPod pod = false ∧
       (opts.inclusionMatcher.matchPod pod = true ∨
        opts.inclusionMatcher.matchContainer c = true) ∧
       opts.exclusionMatcher.matchContainer c = false) := by
  rw [← containerSeen_iff]
  unfold shouldIncludeContainer
  split_ifs with h1 h2 h3 h4 h5 <;>
    first
      | (rw [Bool.not_eq_true']
         constructor
         · intro he
           refine ⟨by tauto, by revert h2; simp, by tauto, by revert h4; simp,
             by tauto, he⟩
         · intro hr
           exact hr.2.2.2.2.2)
      | (refine iff_of_false (by simp) ?_
         intro hr
         obtain ⟨p1, p2, p3, p4, p5, p6⟩ := hr
         try exact h1 (by tauto)
         try simp [p2] at h2
         try exact h3.2 (by tauto)
         try simp [p4] at h4
         try exact h5 (by tauto)
         try tauto)

/-! ### Helper lemmas for timestamp resolution -/

lemma minOpt_isSome (t : Option Int) (x : Int) : (minOpt t x).isSome := by
  cases t <;> simp [minOpt]
  split <;> simp

lemma minOpt_le (t : Option Int) (x m : Int) (h : minOpt t x = some m) :
    m ≤ x ∧ ∀ a, t = some a → m ≤ a := by
  cases t with
  | none =>
    simp [minOpt] at h
    exact ⟨le_of_eq h.symm, by simp⟩
  | some cur =>
    simp only [minOpt] at h
    split at h <;> rename_i hc <;> cases h <;>
      constructor <;> first
        | omega
        | (intro a ha; cases ha; omega)

lemma minOpt_mem (t : Option Int) (x m : Int) (h : minOpt t x = some m) :
    m = x ∨ t = some m := by
  cases t with
  | none => simp [minOpt] at h; exact Or.inl h.symm
  | some cur =>
    simp only [minOpt] at h
    split at h <;> cases h
    · exact Or.inl rfl
    · exact Or.inr rfl

lemma foldl_earliestRunningStep_eq (c : Container) (l : List ContainerStatus) :
    ∀ acc, l.foldl (earliestRunningStep c) acc =
      (l.filterMap fun s => if s.name = c.name then s.state.running else none).foldl
        minOpt acc := by
  induction l with
  | nil => intro acc; rfl
  | cons s l ih =>
    intro acc
    by_cases hn : s.name = c.name
    · cases hr : s.state.running with
      | none =>
        simp [List.foldl_cons, earliestRunningStep, hn, hr, ih]
      | some x =>
        simp only [List.foldl_cons, List.filterMap_cons, hn, if_pos, hr, ih]
        congr 1
        simp [earliestRunningStep, hn, hr, minOpt]
    · simp [List.foldl_cons, earliestRunningStep, hn, ih]

lemma foldl_minOpt_eq_none_iff (l : List Int) :
    ∀ acc, l.foldl minOpt acc = none ↔ acc = none ∧ l = [] := by
  induction l with
  | nil => intro acc; simp
  | cons x l ih =>
    intro acc
    simp only [List.foldl_cons, ih]
    constructor
    · rintro ⟨h, -⟩
      exact absurd h (by have := minOpt_isSome acc x; simp_all)
    · rintro ⟨-, h⟩
      exact absurd h (by simp)

lemma foldl_minOpt_min (l : List Int) :
    ∀ acc t, l.foldl minOpt acc = some t →
      (t ∈ l ∨ acc = some t) ∧ (∀ u ∈ l, t ≤ u) ∧ (∀ a, acc = some a → t ≤ a) := by
  induction l with
  | nil =>
    intro acc t h
    simp only [List.foldl_nil] at h
    refine ⟨Or.inr h, by simp, ?_⟩
    intro a ha
    rw [h] at ha
    cases ha
    rfl
  | cons x l ih =>
    intro acc t h
    obtain ⟨hmem, hub, hacc⟩ := ih (minOpt acc x) t h
    obtain ⟨m, hm⟩ := Option.isSome_iff_exists.mp (minOpt_isSome acc x)
    have hmx := minOpt_le acc x m hm
    have htm : t ≤ m := hacc m hm
    refine ⟨?_, ?_, ?_⟩
    · rcases hmem with hmem | hmem
      · exact Or.inl (List.mem_cons_of_mem _ hmem)
      · rw [hm] at hmem
        cases hmem
        rcases minOpt_mem acc x t hm with h' | h'
        · exact Or.inl (h' ▸ List.mem_cons_self _ _)
        · exact Or.inr h'
    · intro u hu
      rcases List.mem_cons.mp hu with rfl | hu
      · exact le_trans htm hmx.1
      · exact hub u hu
    · intro a ha
      exact le_trans htm (hmx.2 a ha)

/-- The resolution loop over the (zero-prefixed) status list collects exactly
the running starts of the statuses actually on the pod. -/
lemma filterMap_allStatuses_eq (pod : Pod) (c : Container) :
    ((allContainerStatusesForPod pod).filterMap fun s =>
        if s.name = c.name then s.state.running else none) = runningStarts pod c := by
  unfold allContainerStatusesForPod runningStarts
  rw [List.append_assoc, List.filterMap_append,
    filterMap_replicate_eq_nil _ _ _ (by simp [zeroContainerStatus])]
  simp

/-- C2: getStartTimestamp follows the priority policy: replay-from-start
yields no timestamp; otherwise a configured explicit instant is used
verbatim; otherwise an initial add resolves to now minus five seconds;
otherwise the earliest running-state start time among the container's status
entries is used, failing (and leaving the registry untouched in
addContainer) when no running-state entry exists. -/
theorem getStartTimestamp_spec (opts : ControllerOptions) (pod : Pod)
    (c : Container) (b : Bool) (now : Int) :
    (opts.sinceStart = true → getStartTimestamp opts pod c b now = some none) ∧
    (opts.sinceStart = false → ∀ t, opts.since = some t →
       getStartTimestamp opts pod c b now = some (some t)) ∧
    (opts.sinceStart = false → opts.since = none → b = true →
       getStartTimestamp opts pod c b now = some (some (now - 5))) ∧
    (opts.sinceStart = false → opts.since = none → b = false →
       ((getStartTimestamp opts pod c b now = none ↔ runningStarts pod c = []) ∧
        (∀ t, getStartTimestamp opts pod c b now = some (some t) →
           t ∈ runningStarts pod c ∧ ∀ u ∈ runningStarts pod c, t ≤ u))) ∧
    (∀ cbk st, getStartTimestamp opts pod c b now = none →
       (addContainer opts cbk st pod c b now).1 = st) := by
  refine ⟨?_, ?_, ?_, ?_, ?_⟩
  · intro h
    simp [getStartTimestamp, h]
  · intro h t ht
    simp [getStartTimestamp, h, ht]
  · intro h hs hb
    simp [getStartTimestamp, h, hs, hb]
  · intro h hs hb
    subst hb
    simp only [getStartTimestamp, h, Bool.false_eq_true, if_false, hs,
      foldl_earliestRunningStep_eq, filterMap_allStatuses_eq]
    constructor
    · constructor
      · intro he
        split at he
        · rename_i hnone
          exact ((foldl_minOpt_eq_none_iff _ _).mp hnone).2
        · cases he
      · intro he
        rw [he]
        simp
    · intro t ht
      split at ht
      · cases ht
      · rename_i u hu
        cases ht
        have := foldl_minOpt_min _ _ _ hu
        refine ⟨?_, this.2.1⟩
        rcases this.1 with h' | h'
        · exact h'
        · cases h'
  · intro cbk st hts
    by_cases h1 : (lookupKey st (buildKey pod c)).isSome
    · simp [addContainer, h1]
    · by_cases h2 : cbk.onEnter pod c b = false
      · simp [addContainer, h1, h2]
      · simp [addContainer, h1, h2, hts]

/-! ### Helper lemmas about the registry and addContainer/deleteContainer -/

lemma lookupKey_eq_none_iff (r : Registry) (k : String) :
    lookupKey r k = none ↔ k ∉ regKeys r := by
  induction r with
  | nil => simp [lookupKey, regKeys]
  | cons e rest ih =>
    by_cases h : e.1 = k
    · simp [lookupKey, regKeys, h]
    · simp only [lookupKey, if_neg h, ih]
      simp only [regKeys, List.map_cons, List.mem_cons, not_or]
      constructor
      · intro hn
        exact ⟨fun h' => h h'.symm, hn⟩
      · intro hn
        exact hn.2

/-- Case split on `addContainer`: either the registry is returned unchanged,
or the key was absent and exactly one new entry for it is consed on. -/
lemma addContainer_cases (opts : ControllerOptions) (cb : Callbacks) (st : Registry)
    (pod : Pod) (c : Container) (b : Bool) (now : Int) :
    (addContainer opts cb st pod c b now).1 = st ∨
      (lookupKey st (buildKey pod c) = none ∧ ∃ ts,
        (addContainer opts cb st pod c b now).1 =
          (buildKey pod c, ⟨pod, c, ts⟩) :: st) := by
  by_cases h1 : (lookupKey st (buildKey pod c)).isSome
  · left
    simp [addContainer, h1]
  · have h1' : lookupKey st (buildKey pod c) = none :=
      Option.not_isSome_iff_eq_none.mp h1
    by_cases h2 : cb.onEnter pod c b = false
    · left
      simp [addContainer, h1, h2]
    · cases hg : getStartTimestamp opts pod c b now with
      | none =>
        left
        simp [addContainer, h1, h2, hg]
      | some ts =>
        right
        refine ⟨h1', ts, ?_⟩
        simp [addContainer, h1, h2, hg]

/-- Every event emitted by `addContainer` is an enter-gate invocation or a
timestamp resolution for the container's own key. -/
lemma addContainer_events (opts : ControllerOptions) (cb : Callbacks) (st : Registry)
    (pod : Pod) (c : Container) (b : Bool) (now : Int) :
    ∀ ev ∈ (addContainer opts cb st pod c b now).2,
      ev = Event.enter (buildKey pod c) b ∨ ev = Event.resolveTs (buildKey pod c) := by
  intro ev hev
  by_cases h1 : (lookupKey st (buildKey pod c)).isSome
  · simp [addContainer, h1] at hev
  · by_cases h2 : cb.onEnter pod c b = false
    · simp [addContainer, h1, h2] at hev
      simp [hev]
    · cases hg : getStartTimestamp opts pod c b now with
      | none =>
        simp [addContainer, h1, h2, hg] at hev
        tauto
      | some ts =>
        simp [addContainer, h1, h2, hg] at hev
        tauto

/-- Every entry of the registry after `addContainer` was already present or
holds the pod the call was made with. -/
lemma addContainer_entries (opts : ControllerOptions) (cb : Callbacks) (st : Registry)
    (pod : Pod) (c : Container) (b : Bool) (now : Int) :
    ∀ en ∈ (addContainer opts cb st pod c b now).1, en ∈ st ∨ en.2.pod = pod := by
  intro en hen
  rcases addContainer_cases opts cb st pod c b now with h | ⟨-, ts, h⟩
  · rw [h] at hen
    exact Or.inl hen
  · rw [h] at hen
    rcases List.mem_cons.mp hen with rfl | hen
    · exact Or.inr rfl
    · exact Or.inl hen

/-- addContainer preserves distinctness of the registered keys. -/
lemma addContainer_nodup (opts : ControllerOptions) (cb : Callbacks) (st : Registry)
    (pod : Pod) (c : Container) (b : Bool) (now : Int)
    (h : (regKeys st).Nodup) : (regKeys (addContainer opts cb st pod c b now).1).Nodup := by
  rcases addContainer_cases opts cb st pod c b now with h' | ⟨habs, tl, h'⟩
  · rw [h']
    exact h
  · rw [h']
    simp only [regKeys, List.map_cons, List.nodup_cons]
    exact ⟨(lookupKey_eq_none_iff st _).mp habs, h⟩

/-- C3: an addContainer call whose key is already registered returns at once,
with the registry unchanged and no enter-gate invocation and no timestamp
resolution; and over any sequence of addContainer calls the registry keys
stay distinct, so at most one tailer is ever held per key. -/
theorem addContainer_idempotent_spec :
    (∀ (opts : ControllerOptions) (cb : Callbacks) (st : Registry) (pod : Pod)
       (c : Container) (b : Bool) (now : Int),
       (lookupKey st (buildKey pod c)).isSome = true →
       addContainer opts cb st pod c b now = (st, [])) ∧
    (∀ (opts : ControllerOptions) (cb : Callbacks)
       (cmds : List (Pod × Container × Bool × Int)) (st : Registry),
       (regKeys st).Nodup → (regKeys (execAdds opts cb cmds st)).Nodup) := by
  constructor
  · intro opts cb st pod c b now h
    simp [addContainer, h]
  · intro opts cb cmds
    induction cmds with
    | nil => intro st h; exact h
    | cons cmd rest ih =>
      intro st h
      exact ih _ (addContainer_nodup opts cb st cmd.1 cmd.2.1 cmd.2.2.1 cmd.2.2.2 h)

/-- C7: when the key is absent and the enter gate vetoes, addContainer leaves
the registry unchanged (no tailer is constructed, the key stays absent) and
performs no timestamp resolution. -/
theorem addContainer_veto_spec (opts : ControllerOptions) (cb : Callbacks)
    (st : Registry) (pod : Pod) (c : Container) (b : Bool) (now : Int)
    (habs : lookupKey st (buildKey pod c) = none)
    (hveto : cb.onEnter pod c b = false) :
    addContainer opts cb st pod c b now = (st, [Event.enter (buildKey pod c) b]) := by
  simp [addContainer, habs, hveto]

lemma mem_regKeys_filter (st : Registry) (key k : String) :
    k ∈ regKeys (st.filter fun e => decide (e.1 ≠ key)) ↔
      k ∈ regKeys st ∧ k ≠ key := by
  simp only [regKeys, List.mem_map, List.mem_filter, decide_eq_true_iff]
  constructor
  · rintro ⟨e, ⟨he, hne⟩, rfl⟩
    exact ⟨⟨e, he, rfl⟩, hne⟩
  · rintro ⟨⟨e, he, rfl⟩, hne⟩
    exact ⟨e, ⟨he, hne⟩, rfl⟩

/-- C8: deleting an absent key is a no-op with no stop and no exit; deleting a
present key removes exactly that key's entries and emits one stop and one
exit. -/
theorem deleteContainer_spec :
    (∀ (st : Registry) (pod : Pod) (c : Container),
       lookupKey st (buildKey pod c) = none →
       deleteContainer st pod c = (st, [])) ∧
    (∀ (st : Registry) (pod : Pod) (c : Container) (tl : ContainerTailer),
       lookupKey st (buildKey pod c) = some tl →
       (∀ k, k ∈ regKeys (deleteContainer st pod c).1 ↔
          (k ∈ regKeys st ∧ k ≠ buildKey pod c)) ∧
       (deleteContainer st pod c).2 = [Event.stop (buildKey pod c),
                                       Event.exit (buildKey pod c)]) := by
  constructor
  · intro st pod c h
    simp [deleteContainer, h]
  · intro st pod c tl h
    constructor
    · intro k
      simp only [deleteContainer, h]
      exact mem_regKeys_filter st (buildKey pod c) k
    · simp [deleteContainer, h]

/-! ### C4: the status-union defect -/

/-- C4: the sequence iterated by the controller is NOT exactly the pod's init
statuses followed by its regular statuses.  `allContainerStatusesForPod`
allocates its destination slice with `make([]v1.ContainerStatus, n)` (length
`n`, not capacity), so the appended statuses follow `n` zero-valued entries:
at `podC4` the function yields four entries, the first two of them zero
values that are on no status list of the pod. -/
theorem allContainerStatuses_bug_eval :
    allContainerStatusesForPod podC4 =
      [zeroContainerStatus, zeroContainerStatus,
       ⟨"init-a", ⟨false, false, some 3⟩⟩, ⟨"c1", ⟨false, false, some 7⟩⟩] ∧
    allContainerStatusesForPod podC4 ≠
      podC4.initContainerStatuses ++ podC4.containerStatuses ∧
    zeroContainerStatus ∉ podC4.initContainerStatuses ++ podC4.containerStatuses := by
  refine ⟨rfl, by decide, by decide⟩

/-! ### C6: onUpdate and onDelete touch only regular containers -/

lemma deleteContainer_events (st : Registry) (pod : Pod) (c : Container) :
    ∀ ev ∈ (deleteContainer st pod c).2,
      ev = Event.stop (buildKey pod c) ∨ ev = Event.exit (buildKey pod c) := by
  intro ev hev
  cases h : lookupKey st (buildKey pod c) with
  | none => simp [deleteContainer, h] at hev
  | some tl =>
    simp [deleteContainer, h] at hev
    tauto

lemma deleteContainer_keeps (st : Registry) (pod : Pod) (c : Container) (k : String)
    (hk : k ≠ buildKey pod c) (hmem : k ∈ regKeys st) :
    k ∈ regKeys (deleteContainer st pod c).1 := by
  cases h : lookupKey st (buildKey pod c) with
  | none => simpa [deleteContainer, h] using hmem
  | some tl =>
    simp only [deleteContainer, h]
    exact (mem_regKeys_filter st (buildKey pod c) k).mpr ⟨hmem, hk⟩

lemma addContainer_keeps (opts : ControllerOptions) (cb : Callbacks) (st : Registry)
    (pod : Pod) (c : Container) (b : Bool) (now : Int) (k : String)
    (hmem : k ∈ regKeys st) :
    k ∈ regKeys (addContainer opts cb st pod c b now).1 := by
  rcases addContainer_cases opts cb st pod c b now with h | ⟨-, ts, h⟩
  · rwa [h]
  · rw [h]
    simp only [regKeys, List.map_cons, List.mem_cons]
    exact Or.inr hmem

lemma updateStep_inv (opts : ControllerOptions) (cb : Callbacks) (pod : Pod)
    (now : Int) (k : String)
    (hk : ∀ c ∈ pod.containers, k ≠ buildKey pod c) :
    ∀ (l : List ContainerStatus) (acc : Registry × List Event),
      (k ∈ regKeys acc.1 → k ∈ regKeys (l.foldl (updateStep opts cb pod now) acc).1) ∧
      (Event.exit k ∉ acc.2 →
        Event.exit k ∉ (l.foldl (updateStep opts cb pod now) acc).2) := by
  intro l
  induction l with
  | nil => intro acc; exact ⟨id, id⟩
  | cons s l ih =>
    intro acc
    rw [List.foldl_cons]
    have hstep : (k ∈ regKeys acc.1 → k ∈ regKeys (updateStep opts cb pod now acc s).1) ∧
        (Event.exit k ∉ acc.2 → Event.exit k ∉ (updateStep opts cb pod now acc s).2) := by
      unfold updateStep
      cases hf : findContainerByName pod.containers s.name with
      | none => exact ⟨id, id⟩
      | some c =>
        have hc : c ∈ pod.containers := by
          have := List.find?_some hf
          exact List.mem_of_find?_eq_some hf
        by_cases hinc : shouldIncludeContainer opts pod c
        · simp only [hinc, if_true]
          refine ⟨fun hm => addContainer_keeps opts cb acc.1 pod c false now k hm, ?_⟩
          intro hne hmem
          rcases List.mem_append.mp hmem with hmem | hmem
          · exact hne hmem
          · rcases addContainer_events opts cb acc.1 pod c false now _ hmem with h | h <;>
              simp at h
        · simp only [hinc, if_false]
          refine ⟨fun hm => deleteContainer_keeps acc.1 pod c k (hk c hc) hm, ?_⟩
          intro hne hmem
          rcases List.mem_append.mp hmem with hmem | hmem
          · exact hne hmem
          · rcases deleteContainer_events acc.1 pod c _ hmem with h | h
            · simp at h
            · injection h with h'
              exact hk c hc h'
    exact ⟨fun hm => (ih _).1 (hstep.1 hm), fun hne => (ih _).2 (hstep.2 hne)⟩

lemma deleteStep_inv (pod : Pod) (k : String)
    (hk : ∀ c ∈ pod.containers, k ≠ buildKey pod c) :
    ∀ (l : List Container), (∀ c ∈ l, c ∈ pod.containers) →
      ∀ (acc : Registry × List Event),
      (k ∈ regKeys acc.1 → k ∈ regKeys (l.foldl (deleteStep pod) acc).1) ∧
      (Event.exit k ∉ acc.2 → Event.exit k ∉ (l.foldl (deleteStep pod) acc).2) := by
  intro l
  induction l with
  | nil => intro _ acc; exact ⟨id, id⟩
  | cons c l ih =>
    intro hsub acc
    rw [List.foldl_cons]
    have hc : c ∈ pod.containers := hsub c (List.mem_cons_self _ _)
    have hstep : (k ∈ regKeys acc.1 → k ∈ regKeys (deleteStep pod acc c).1) ∧
        (Event.exit k ∉ acc.2 → Event.exit k ∉ (deleteStep pod acc c).2) := by
      unfold deleteStep
      refine ⟨fun hm => deleteContainer_keeps acc.1 pod c k (hk c hc) hm, ?_⟩
      intro hne hmem
      rcases List.mem_append.mp hmem with hmem | hmem
      · exact hne hmem
      · rcases deleteContainer_events acc.1 pod c _ hmem with h | h
        · simp at h
        · injection h with h'
          exact hk c hc h'
    have hsub' : ∀ c' ∈ l, c' ∈ pod.containers :=
      fun c' hc' => hsub c' (List.mem_cons_of_mem _ hc')
    exact ⟨fun hm => (ih hsub' _).1 (hstep.1 hm),
           fun hne => (ih hsub' _).2 (hstep.2 hne)⟩

/-- C6: onUpdate resolves status names against the regular-container specs
only — when no status name matches any regular spec the whole update is a
silent no-op — and neither onUpdate nor onDelete ever removes, or emits an
exit for, a key that is not the key of one of the pod's regular containers;
in particular a session keyed to an init container survives both. -/
theorem onUpdate_onDelete_regular_only :
    (∀ (opts : ControllerOptions) (cb : Callbacks) (st : Registry) (pod : Pod)
       (now : Int) (k : String),
       (∀ c ∈ pod.containers, k ≠ buildKey pod c) →
       ((k ∈ regKeys st → k ∈ regKeys (onUpdate opts cb st pod now).1) ∧
        Event.exit k ∉ (onUpdate opts cb st pod now).2 ∧
        (k ∈ regKeys st → k ∈ regKeys (onDelete st pod).1) ∧
        Event.exit k ∉ (onDelete st pod).2)) ∧
    (∀ (opts : ControllerOptions) (cb : Callbacks) (st : Registry) (pod : Pod)
       (now : Int),
       (∀ s ∈ allContainerStatusesForPod pod, ∀ c ∈ pod.containers, c.name ≠ s.name) →
       onUpdate opts cb st pod now = (st, [])) := by
  constructor
  · intro opts cb st pod now k hk
    have hu := updateStep_inv opts cb pod now k hk (allContainerStatusesForPod pod) (st, [])
    have hd := deleteStep_inv pod k hk pod.containers (fun _ h => h) (st, [])
    exact ⟨hu.1, hu.2 (by simp), hd.1, hd.2 (by simp)⟩
  · intro opts cb st pod now hnone
    unfold onUpdate
    have : ∀ (l : List ContainerStatus),
        (∀ s ∈ l, ∀ c ∈ pod.containers, c.name ≠ s.name) →
        ∀ acc, l.foldl (updateStep opts cb pod now) acc = acc := by
      intro l
      induction l with
      | nil => intro _ acc; rfl
      | cons s l ih =>
        intro hl acc
        rw [List.foldl_cons]
        have hs : findContainerByName pod.containers s.name = none := by
          unfold findContainerByName
          rw [List.find?_eq_none]
          intro c hc
          simpa using hl s (List.mem_cons_self _ _) c hc
        rw [show updateStep opts cb pod now acc s = acc by unfold updateStep; rw [hs]]
        exact ih (fun s' hs' => hl s' (List.mem_cons_of_mem _ hs')) acc
    exact this _ hnone _

/-! ### C10: onAdd performs the initial-add pass with initialAdd = false -/

lemma foldl_addStep_proj (opts : ControllerOptions) (cb : Callbacks) (pod : Pod)
    (now : Int) (l : List Container) :
    ∀ (a : Registry) (e : List Event) (b3 : Bool),
      l.foldl (addStep opts cb pod now) (a, e) =
        ((l.foldl (passStep opts cb pod now false) (a, e, b3)).1,
         (l.foldl (passStep opts cb pod now false) (a, e, b3)).2.1) := by
  induction l with
  | nil => intro a e b3; rfl
  | cons c l ih =>
    intro a e b3
    rw [List.foldl_cons, List.foldl_cons]
    by_cases h : shouldIncludeContainer opts pod c
    · simp only [addStep, passStep, h, if_true]
      exact ih _ _ _
    · simp only [addStep, passStep, h, if_false]
      exact ih _ _ _

/-- C10: onAdd runs exactly the add pass that onInitialAdd runs — same
traversal order, same inclusion checks, same addContainer calls — except that
it passes `initialAdd = false` and drops the added-anything report. -/
theorem onAdd_refines_initialAdd (opts : ControllerOptions) (cb : Callbacks)
    (st : Registry) (pod : Pod) (now : Int) :
    onInitialAdd opts cb st pod now = onAddPass opts cb true st pod now ∧
    onAdd opts cb st pod now =
      ((onAddPass opts cb false st pod now).1,
       (onAddPass opts cb false st pod now).2.1) := by
  constructor
  · rfl
  · unfold onAdd onAddPass
    rw [foldl_addStep_proj opts cb pod now pod.initContainers st [] false]
    rw [foldl_addStep_proj opts cb pod now pod.containers _ _
      ((pod.initContainers.foldl (passStep opts cb pod now false) (st, [], false)).2.2)]

/-! ### Run-level helper lemmas -/

lemma initialAdd_foldl_events (opts : ControllerOptions) (cb : Callbacks) (pod : Pod)
    (now : Int) (l : List Container) :
    ∀ acc, ∀ ev ∈ (l.foldl (initialAddStep opts cb pod now) acc).2.1,
      ev ∈ acc.2.1 ∨ (∃ k b, ev = Event.enter k b) ∨ (∃ k, ev = Event.resolveTs k) := by
  induction l with
  | nil => intro acc ev hev; exact Or.inl hev
  | cons c l ih =>
    intro acc ev hev
    rw [List.foldl_cons] at hev
    rcases ih _ ev hev with hmem | h | h
    · unfold initialAddStep at hmem
      by_cases hinc : shouldIncludeContainer opts pod c = true
      · simp only [hinc, if_true] at hmem
        rcases List.mem_append.mp hmem with hmem | hmem
        · exact Or.inl hmem
        · rcases addContainer_events opts cb acc.1 pod c true now ev hmem with h | h
          · exact Or.inr (Or.inl ⟨_, _, h⟩)
          · exact Or.inr (Or.inr ⟨_, h⟩)
      · simp only [hinc, if_false] at hmem
        exact Or.inl hmem
    · exact Or.inr (Or.inl h)
    · exact Or.inr (Or.inr h)

lemma onInitialAdd_events (opts : ControllerOptions) (cb : Callbacks) (st : Registry)
    (pod : Pod) (now : Int) :
    ∀ ev ∈ (onInitialAdd opts cb st pod now).2.1,
      (∃ k b, ev = Event.enter k b) ∨ (∃ k, ev = Event.resolveTs k) := by
  intro ev hev
  unfold onInitialAdd at hev
  rcases initialAdd_foldl_events opts cb pod now pod.containers _ ev hev with hmem | h | h
  · rcases initialAdd_foldl_events opts cb pod now pod.initContainers _ ev hmem with
      hmem2 | h | h
    · simp at hmem2
    · exact Or.inl h
    · exact Or.inr h
  · exact Or.inl h
  · exact Or.inr h

lemma podStep_foldl_events (opts : ControllerOptions) (cb : Callbacks) (now : Int)
    (pods : List Pod) :
    ∀ acc, ∀ ev ∈ (pods.foldl (podStep opts cb now) acc).2.1,
      ev ∈ acc.2.1 ∨ (∃ k b, ev = Event.enter k b) ∨ (∃ k, ev = Event.resolveTs k) := by
  induction pods with
  | nil => intro acc ev hev; exact Or.inl hev
  | cons pod pods ih =>
    intro acc ev hev
    rw [List.foldl_cons] at hev
    rcases ih _ ev hev with hmem | h | h
    · unfold podStep at hmem
      rcases List.mem_append.mp hmem with hmem | hmem
      · exact Or.inl hmem
      · rcases onInitialAdd_events opts cb acc.1 pod now ev hmem with h | h
        · exact Or.inr (Or.inl h)
        · exact Or.inr (Or.inr h)
    · exact Or.inr (Or.inl h)
    · exact Or.inr (Or.inr h)

lemma runNamespaces_events_shape (opts : ControllerOptions) (cb : Callbacks)
    (env : String → Except String (List Pod)) (now : Int) :
    ∀ (nss : List String) (st : Registry) (disc : Bool),
      ∀ ev ∈ (runNamespaces opts cb env now nss st disc).events,
        (∃ k b, ev = Event.enter k b) ∨ (∃ k, ev = Event.resolveTs k) ∨
        (∃ n, n ∈ nss ∧ ev = Event.subscribe n) := by
  intro nss
  induction nss with
  | nil => intro st disc ev hev; simp [runNamespaces] at hev
  | cons ns rest ih =>
    intro st disc ev hev
    cases hp : env ns with
    | error e =>
      simp [runNamespaces, hp] at hev
    | ok pods =>
      simp only [runNamespaces, hp] at hev
      rcases List.mem_append.mp hev with hev | hev
      · rcases List.mem_append.mp hev with hev | hev
        · rcases podStep_foldl_events opts cb now pods _ ev hev with hmem | h | h
          · simp at hmem
          · exact Or.inl h
          · exact Or.inr (Or.inl h)
        · rcases List.mem_singleton.mp hev with rfl
          exact Or.inr (Or.inr ⟨ns, List.mem_cons_self _ _, rfl⟩)
      · rcases ih _ _ ev hev with h | h | ⟨n, hn, h⟩
        · exact Or.inl h
        · exact Or.inr (Or.inl h)
        · exact Or.inr (Or.inr ⟨n, List.mem_cons_of_mem _ hn, h⟩)

lemma initialAdd_foldl_third (opts : ControllerOptions) (cb : Callbacks) (pod : Pod)
    (now : Int) (l : List Container) :
    ∀ acc, (l.foldl (initialAddStep opts cb pod now) acc).2.2 =
      (acc.2.2 || l.any fun c => shouldIncludeContainer opts pod c) := by
  induction l with
  | nil => intro acc; simp
  | cons c l ih =>
    intro acc
    rw [List.foldl_cons]
    by_cases hinc : shouldIncludeContainer opts pod c = true
    · simp [initialAddStep, hinc, ih]
    · simp [initialAddStep, hinc, ih]

lemma onInitialAdd_added (opts : ControllerOptions) (cb : Callbacks) (st : Registry)
    (pod : Pod) (now : Int) :
    (onInitialAdd opts cb st pod now).2.2 =
      (pod.initContainers ++ pod.containers).any
        fun c => shouldIncludeContainer opts pod c := by
  unfold onInitialAdd
  rw [initialAdd_foldl_third, initialAdd_foldl_third]
  simp [Bool.or_assoc]

lemma podStep_foldl_third (opts : ControllerOptions) (cb : Callbacks) (now : Int)
    (pods : List Pod) :
    ∀ acc, (pods.foldl (podStep opts cb now) acc).2.2 =
      (acc.2.2 || pods.any fun pod =>
        (pod.initContainers ++ pod.containers).any
          fun c => shouldIncludeContainer opts pod c) := by
  induction pods with
  | nil => intro acc; simp
  | cons pod pods ih =>
    intro acc
    rw [List.foldl_cons]
    simp [podStep, onInitialAdd_added, ih, Bool.or_assoc]

lemma runNamespaces_err_none (opts : ControllerOptions) (cb : Callbacks)
    (env : String → Except String (List Pod)) (now : Int) :
    ∀ (nss : List String) (st : Registry) (disc : Bool),
      (∀ n ∈ nss, ∃ pods, env n = Except.ok pods) →
      (runNamespaces opts cb env now nss st disc).err = none := by
  intro nss
  induction nss with
  | nil => intro st disc _; rfl
  | cons ns rest ih =>
    intro st disc h
    obtain ⟨pods, hp⟩ := h ns (List.mem_cons_self _ _)
    simp only [runNamespaces, hp]
    exact ih _ _ (fun n hn => h n (List.mem_cons_of_mem _ hn))

lemma runNamespaces_disc (opts : ControllerOptions) (cb : Callbacks)
    (env : String → Except String (List Pod)) (now : Int) :
    ∀ (nss : List String) (st : Registry) (disc : Bool),
      (∀ n ∈ nss, ∃ pods, env n = Except.ok pods) →
      (runNamespaces opts cb env now nss st disc).discoveredAny =
        (disc || nss.any (namespaceDiscovers opts env)) := by
  intro nss
  induction nss with
  | nil => intro st disc _; simp [runNamespaces]
  | cons ns rest ih =>
    intro st disc h
    obtain ⟨pods, hp⟩ := h ns (List.mem_cons_self _ _)
    simp only [runNamespaces, hp]
    rw [ih _ _ (fun n hn => h n (List.mem_cons_of_mem _ hn))]
    simp only [processPods, podStep_foldl_third]
    simp [namespaceDiscovers, hp, Bool.or_assoc]

lemma initialAdd_foldl_noInc (opts : ControllerOptions) (cb : Callbacks) (pod : Pod)
    (now : Int) (l : List Container)
    (h : ∀ c ∈ l, shouldIncludeContainer opts pod c = false) :
    ∀ acc, l.foldl (initialAddStep opts cb pod now) acc = acc := by
  induction l with
  | nil => intro acc; rfl
  | cons c l ih =>
    intro acc
    rw [List.foldl_cons]
    rw [show initialAddStep opts cb pod now acc c = acc by
      simp [initialAddStep, h c (List.mem_cons_self _ _)]]
    exact ih (fun c' hc' => h c' (List.mem_cons_of_mem _ hc')) acc

lemma podStep_foldl_noInc (opts : ControllerOptions) (cb : Callbacks) (now : Int)
    (pods : List Pod)
    (h : ∀ pod ∈ pods, ∀ c ∈ pod.initContainers ++ pod.containers,
      shouldIncludeContainer opts pod c = false) :
    ∀ acc, pods.foldl (podStep opts cb now) acc = acc := by
  induction pods with
  | nil => intro acc; rfl
  | cons pod pods ih =>
    intro acc
    rw [List.foldl_cons]
    have hpod : onInitialAdd opts cb acc.1 pod now = (acc.1, [], false) := by
      unfold onInitialAdd
      rw [initialAdd_foldl_noInc opts cb pod now pod.initContainers
        (fun c hc => h pod (List.mem_cons_self _ _) c (List.mem_append_left _ hc)),
        initialAdd_foldl_noInc opts cb pod now pod.containers
        (fun c hc => h pod (List.mem_cons_self _ _) c (List.mem_append_right _ hc))]
    rw [show podStep opts cb now acc pod = acc by simp [podStep, hpod]]
    exact ih (fun p hp => h p (List.mem_cons_of_mem _ hp)) acc

lemma runNamespaces_tailers_noInc (opts : ControllerOptions) (cb : Callbacks)
    (env : String → Except String (List Pod)) (now : Int) :
    ∀ (nss : List String) (st : Registry) (disc : Bool),
      (∀ n ∈ nss, ∃ pods, env n = Except.ok pods) →
      (∀ n ∈ nss, namespaceDiscovers opts env n = false) →
      (runNamespaces opts cb env now nss st disc).tailers = st := by
  intro nss
  induction nss with
  | nil => intro st disc _ _; rfl
  | cons ns rest ih =>
    intro st disc h hnd
    obtain ⟨pods, hp⟩ := h ns (List.mem_cons_self _ _)
    have hanyf : pods.any (fun pod => (pod.initContainers ++ pod.containers).any
        fun c => shouldIncludeContainer opts pod c) = false := by
      have := hnd ns (List.mem_cons_self _ _)
      simpa [namespaceDiscovers, hp] using this
    have hnoinc : ∀ pod ∈ pods, ∀ c ∈ pod.initContainers ++ pod.containers,
        shouldIncludeContainer opts pod c = false := by
      intro pod hpod c hc
      have h1 := Bool.eq_false_iff.mpr (List.any_eq_false.mp hanyf pod hpod)
      exact Bool.eq_false_iff.mpr (List.any_eq_false.mp h1 c hc)
    simp only [runNamespaces, hp]
    rw [show processPods opts cb now pods st disc = (st, [], disc) by
      unfold processPods
      exact podStep_foldl_noInc opts cb now pods hnoinc (st, [], disc)]
    exact ih _ _ (fun n hn => h n (List.mem_cons_of_mem _ hn))
      (fun n hn => hnd n (List.mem_cons_of_mem _ hn))

/-! ### C5: the empty-discovery signal -/

/-- C5 counterexample: with one listed pod whose container passes inclusion
but whose session start is vetoed by the enter gate, NO session is ever
started during initial discovery (the registry stays empty), yet the
empty-discovery callback is NOT invoked — refuting the claim that the
callback fires if and only if no container was started. -/
theorem nothingDiscovered_counterexample :
    (runInitialPass optsC5 cbVeto envC5 0).tailers = [] ∧
    Event.nothingDiscovered ∉ (runInitialPass optsC5 cbVeto envC5 0).events := by
  constructor
  · rfl
  · decide

/-- C5 (amended): when every configured namespace lists successfully, the
empty-discovery callback fires — exactly once, after the listing pass — if
and only if no container of any listed pod passed the inclusion policy
(discovery means passing inclusion, not starting a session); and when it
fires, no session was started during initial discovery. -/
theorem nothingDiscovered_iff_spec (opts : ControllerOptions) (cb : Callbacks)
    (env : String → Except String (List Pod)) (now : Int)
    (h : ∀ n ∈ opts.namespaces, ∃ pods, env n = Except.ok pods) :
    (anyIncludedDuringListing opts env = true →
       Event.nothingDiscovered ∉ (runInitialPass opts cb env now).events) ∧
    (anyIncludedDuringListing opts env = false →
       ((∃ l, (runInitialPass opts cb env now).events =
            l ++ [Event.nothingDiscovered] ∧ Event.nothingDiscovered ∉ l) ∧
        (runInitialPass opts cb env now).tailers = [])) := by
  have herr := runNamespaces_err_none opts cb env now opts.namespaces [] false h
  have hdisc := runNamespaces_disc opts cb env now opts.namespaces [] false h
  have hnd : Event.nothingDiscovered ∉
      (runNamespaces opts cb env now opts.namespaces [] false).events := by
    intro hmem
    rcases runNamespaces_events_shape opts cb env now opts.namespaces [] false _ hmem
      with ⟨k, b, h'⟩ | ⟨k, h'⟩ | ⟨n, _, h'⟩ <;> simp at h'
  constructor
  · intro hany
    have hdisc' : (runNamespaces opts cb env now opts.namespaces [] false).discoveredAny
        = true := by
      rw [hdisc]
      simpa [anyIncludedDuringListing] using hany
    simp only [runInitialPass, herr, hdisc']
    simpa using hnd
  · intro hany
    have hdisc' : (runNamespaces opts cb env now opts.namespaces [] false).discoveredAny
        = false := by
      rw [hdisc]
      simpa [anyIncludedDuringListing] using hany
    constructor
    · refine ⟨(runNamespaces opts cb env now opts.namespaces [] false).events, ?_, hnd⟩
      simp [runInitialPass, herr, hdisc']
    · have hnone : ∀ n ∈ opts.namespaces, namespaceDiscovers opts env n = false :=
        fun n hn => Bool.eq_false_iff.mpr
          (List.any_eq_false.mp (by simpa [anyIncludedDuringListing] using hany) n hn)
      have hst := runNamespaces_tailers_noInc opts cb env now opts.namespaces [] false h hnone
      simp [runInitialPass, herr, hdisc', hst]

/-! ### C9: a listing failure aborts the run -/

lemma runNamespaces_append (opts : ControllerOptions) (cb : Callbacks)
    (env : String → Except String (List Pod)) (now : Int) (l₁ l₂ : List String) :
    ∀ (st : Registry) (disc : Bool),
      runNamespaces opts cb env now (l₁ ++ l₂) st disc =
        (match (runNamespaces opts cb env now l₁ st disc).err with
         | some _ => runNamespaces opts cb env now l₁ st disc
         | none =>
           ⟨(runNamespaces opts cb env now l₂
               (runNamespaces opts cb env now l₁ st disc).tailers
               (runNamespaces opts cb env now l₁ st disc).discoveredAny).tailers,
            (runNamespaces opts cb env now l₁ st disc).events ++
              (runNamespaces opts cb env now l₂
                (runNamespaces opts cb env now l₁ st disc).tailers
                (runNamespaces opts cb env now l₁ st disc).discoveredAny).events,
            (runNamespaces opts cb env now l₂
              (runNamespaces opts cb env now l₁ st disc).tailers
              (runNamespaces opts cb env now l₁ st disc).discoveredAny).discoveredAny,
            (runNamespaces opts cb env now l₂
              (runNamespaces opts cb env now l₁ st disc).tailers
              (runNamespaces opts cb env now l₁ st disc).discoveredAny).err⟩) := by
  induction l₁ with
  | nil =>
    intro st disc
    simp [runNamespaces]
  | cons ns rest ih =>
    intro st disc
    cases hp : env ns with
    | error e =>
      simp [runNamespaces, hp]
    | ok pods =>
      simp only [List.cons_append, runNamespaces, hp]
      simp only [List.append_eq]
      rw [ih]
      cases herr2 : (runNamespaces opts cb env now rest
          (processPods opts cb now pods st disc).1
          (processPods opts cb now pods st disc).2.2).err with
      | some e2 => simp [herr2]
      | none => simp [herr2, List.append_assoc]

lemma initialAdd_foldl_entries (opts : ControllerOptions) (cb : Callbacks) (pod : Pod)
    (now : Int) (l : List Container) :
    ∀ acc, ∀ en ∈ (l.foldl (initialAddStep opts cb pod now) acc).1,
      en ∈ acc.1 ∨ en.2.pod = pod := by
  induction l with
  | nil => intro acc en hen; exact Or.inl hen
  | cons c l ih =>
    intro acc en hen
    rw [List.foldl_cons] at hen
    rcases ih _ en hen with hmem | h
    · unfold initialAddStep at hmem
      by_cases hinc : shouldIncludeContainer opts pod c = true
      · simp only [hinc, if_true] at hmem
        exact addContainer_entries opts cb acc.1 pod c true now en hmem
      · simp only [hinc, if_false] at hmem
        exact Or.inl hmem
    · exact Or.inr h

lemma onInitialAdd_entries (opts : ControllerOptions) (cb : Callbacks) (st : Registry)
    (pod : Pod) (now : Int) :
    ∀ en ∈ (onInitialAdd opts cb st pod now).1, en ∈ st ∨ en.2.pod = pod := by
  intro en hen
  unfold onInitialAdd at hen
  rcases initialAdd_foldl_entries opts cb pod now pod.containers _ en hen with hmem | h
  · rcases initialAdd_foldl_entries opts cb pod now pod.initContainers _ en hmem with
      hmem2 | h
    · exact Or.inl hmem2
    · exact Or.inr h
  · exact Or.inr h

lemma podStep_foldl_entries (opts : ControllerOptions) (cb : Callbacks) (now : Int)
    (pods : List Pod) :
    ∀ acc, ∀ en ∈ (pods.foldl (podStep opts cb now) acc).1,
      en ∈ acc.1 ∨ ∃ pod ∈ pods, en.2.pod = pod := by
  induction pods with
  | nil => intro acc en hen; exact Or.inl hen
  | cons pod pods ih =>
    intro acc en hen
    rw [List.foldl_cons] at hen
    rcases ih _ en hen with hmem | ⟨pod', hp', h⟩
    · unfold podStep at hmem
      rcases onInitialAdd_entries opts cb acc.1 pod now en hmem with hmem2 | h
      · exact Or.inl hmem2
      · exact Or.inr ⟨pod, List.mem_cons_self _ _, h⟩
    · exact Or.inr ⟨pod', List.mem_cons_of_mem _ hp', h⟩

lemma runNamespaces_entries (opts : ControllerOptions) (cb : Callbacks)
    (env : String → Except String (List Pod)) (now : Int) :
    ∀ (nss : List String) (st : Registry) (disc : Bool),
      ∀ en ∈ (runNamespaces opts cb env now nss st disc).tailers,
        en ∈ st ∨ ∃ n ∈ nss, ∃ pods, env n = Except.ok pods ∧ en.2.pod ∈ pods := by
  intro nss
  induction nss with
  | nil => intro st disc en hen; exact Or.inl hen
  | cons ns rest ih =>
    intro st disc en hen
    cases hp : env ns with
    | error e =>
      simp only [runNamespaces, hp] at hen
      exact Or.inl hen
    | ok pods =>
      simp only [runNamespaces, hp] at hen
      rcases ih _ _ en hen with hmem | ⟨n, hn, pods', hok, h⟩
      · unfold processPods at hmem
        rcases podStep_foldl_entries opts cb now pods _ en hmem with hmem2 | ⟨pod, hpod, h⟩
        · exact Or.inl hmem2
        · exact Or.inr ⟨ns, List.mem_cons_self _ _, pods, hp, h ▸ hpod⟩
      · exact Or.inr ⟨n, List.mem_cons_of_mem _ hn, pods', hok, h⟩

/-- C9: when the listing of a configured namespace fails — every namespace
before it listing successfully — the run aborts with an error naming that
namespace, that namespace is never subscribed, the registry is exactly what
the earlier namespaces produced, and (when listed pods carry their
namespace's name) it holds no entry for any container of the failing
namespace. -/
theorem run_listing_error_spec (opts : ControllerOptions) (cb : Callbacks)
    (env : String → Except String (List Pod)) (now : Int)
    (pre : List String) (ns : String) (post : List String) (e : String)
    (hns : opts.namespaces = pre ++ ns :: post)
    (hpre : ∀ n ∈ pre, ∃ pods, env n = Except.ok pods ∧ ∀ pod ∈ pods, pod.ns = n)
    (herr : env ns = Except.error e)
    (hnotin : ns ∉ pre) :
    (runInitialPass opts cb env now).err = some ns ∧
    (runInitialPass opts cb env now).tailers =
      (runNamespaces opts cb env now pre [] false).tailers ∧
    Event.subscribe ns ∉ (runInitialPass opts cb env now).events ∧
    ∀ en ∈ (runInitialPass opts cb env now).tailers, en.2.pod.ns ≠ ns := by
  have hok : ∀ n ∈ pre, ∃ pods, env n = Except.ok pods :=
    fun n hn => ⟨(hpre n hn).choose, (hpre n hn).choose_spec.1⟩
  have herr1 := runNamespaces_err_none opts cb env now pre [] false hok
  have hstep : runNamespaces opts cb env now (ns :: post)
      (runNamespaces opts cb env now pre [] false).tailers
      (runNamespaces opts cb env now pre [] false).discoveredAny =
      ⟨(runNamespaces opts cb env now pre [] false).tailers, [],
       (runNamespaces opts cb env now pre [] false).discoveredAny, some ns⟩ := by
    simp [runNamespaces, herr]
  have hfull : runNamespaces opts cb env now opts.namespaces [] false =
      ⟨(runNamespaces opts cb env now pre [] false).tailers,
       (runNamespaces opts cb env now pre [] false).events,
       (runNamespaces opts cb env now pre [] false).discoveredAny, some ns⟩ := by
    rw [hns, runNamespaces_append opts cb env now pre (ns :: post) [] false, herr1,
      hstep]
    simp
  have hpass : runInitialPass opts cb env now =
      ⟨(runNamespaces opts cb env now pre [] false).tailers,
       (runNamespaces opts cb env now pre [] false).events,
       (runNamespaces opts cb env now pre [] false).discoveredAny, some ns⟩ := by
    unfold runInitialPass
    rw [hfull]
  refine ⟨by rw [hpass], by rw [hpass], ?_, ?_⟩
  · rw [hpass]
    intro hmem
    rcases runNamespaces_events_shape opts cb env now pre [] false _ hmem with
      ⟨k, b, h'⟩ | ⟨k, h'⟩ | ⟨n, hn, h'⟩
    · cases h'
    · cases h'
    · injection h' with h''
      exact hnotin (h'' ▸ hn)
  · rw [hpass]
    intro en hen
    rcases runNamespaces_entries opts cb env now pre [] false en hen with hmem | h
    · simp at hmem
    · obtain ⟨n, hn, pods, hokn, hpods⟩ := h
      obtain ⟨pods', hok', hns'⟩ := hpre n hn
      rw [hokn] at hok'
      injection hok' with hpp
      have : en.2.pod.ns = n := hns' en.2.pod (hpp ▸ hpods)
      rw [this]
      intro hc
      exact hnotin (hc ▸ hn)

/-! ### Concrete witnesses -/

/-- Witness for C2: at podW, non-initial resolution picks 4, the earliest of
the two running start instants 9 and 4. -/
theorem getStartTimestamp_spec_witness :
    (4:Int) ∈ runningStarts podW ⟨"c1"⟩ ∧
      ∀ u ∈ runningStarts podW ⟨"c1"⟩, (4:Int) ≤ u :=
  ((getStartTimestamp_spec optsW podW ⟨"c1"⟩ false 100).2.2.2.1 rfl rfl rfl).2 4 rfl

/-- Witness for C3: adding podW's container onto a registry already holding
its key returns the registry unchanged with no events, and key distinctness
is preserved across a sequence of adds. -/
theorem addContainer_idempotent_spec_witness :
    addContainer optsW cbVeto stW podW ⟨"c1"⟩ true 0 = (stW, []) ∧
    (regKeys (execAdds optsW cbVeto [(podW, ⟨"c1"⟩, true, 0)] stW)).Nodup :=
  ⟨addContainer_idempotent_spec.1 optsW cbVeto stW podW ⟨"c1"⟩ true 0 rfl,
   addContainer_idempotent_spec.2 optsW cbVeto [(podW, ⟨"c1"⟩, true, 0)] stW (by decide)⟩

/-- Witness for C6: the session keyed to the init container survives both
onUpdate and onDelete of its pod. -/
theorem onUpdate_onDelete_regular_only_witness :
    "ns1/p1/init-a" ∈ regKeys (onUpdate optsW cbVeto stW6 podW6 0).1 ∧
    "ns1/p1/init-a" ∈ regKeys (onDelete stW6 podW6).1 :=
  have h := onUpdate_onDelete_regular_only.1 optsW cbVeto stW6 podW6 0
    "ns1/p1/init-a" (by decide)
  ⟨h.1 (by decide), h.2.2.1 (by decide)⟩

/-- Witness for C7: a vetoed add on the empty registry leaves it empty and
only invokes the enter gate. -/
theorem addContainer_veto_spec_witness :
    addContainer optsW cbVeto [] podW ⟨"c1"⟩ false 0 =
      ([], [Event.enter (buildKey podW ⟨"c1"⟩) false]) :=
  addContainer_veto_spec optsW cbVeto [] podW ⟨"c1"⟩ false 0 rfl rfl

/-- Witness for C8: deleting from the empty registry is a silent no-op, and
deleting podW's registered container emits one stop and one exit. -/
theorem deleteContainer_spec_witness :
    deleteContainer [] podW ⟨"c1"⟩ = ([], []) ∧
    (deleteContainer stW podW ⟨"c1"⟩).2 =
      [Event.stop (buildKey podW ⟨"c1"⟩), Event.exit (buildKey podW ⟨"c1"⟩)] :=
  ⟨deleteContainer_spec.1 [] podW ⟨"c1"⟩ rfl,
   (deleteContainer_spec.2 stW podW ⟨"c1"⟩ tlW rfl).2⟩

/-- Witness for C5 (amended): with an empty cluster the empty-discovery event
fires exactly once and the registry stays empty. -/
theorem nothingDiscovered_iff_spec_witness :
    (∃ l, (runInitialPass optsW5 cbVeto envW5 0).events =
        l ++ [Event.nothingDiscovered] ∧ Event.nothingDiscovered ∉ l) ∧
    (runInitialPass optsW5 cbVeto envW5 0).tailers = [] :=
  (nothingDiscovered_iff_spec optsW5 cbVeto envW5 0 (fun _ _ => ⟨[], rfl⟩)).2 rfl

/-- Witness for C9: the run aborts naming "beta", which is never
subscribed. -/
theorem run_listing_error_spec_witness :
    (runInitialPass optsW9 cbVeto envW9 0).err = some "beta" ∧
    Event.subscribe "beta" ∉ (runInitialPass optsW9 cbVeto envW9 0).events :=
  have h := run_listing_error_spec optsW9 cbVeto envW9 0 ["alpha"] "beta" ["gamma"]
    "boom" rfl
    (by
      intro n hn
      simp at hn
      subst hn
      exact ⟨[], rfl, by simp⟩)
    rfl (by decide)
  ⟨h.1, h.2.2.1⟩

end Ktail
